import Mathlib

/-!
Verification of the Polyfund repository: a shallow embedding of the
frontend TypeScript (services/polymarket.ts, App.tsx, TrendingCard.tsx /
ScenarioSimulator, PortfolioCharts.tsx) together with definitions modelled
from the specification for the backend pipeline stages whose Python code is
not part of the repository snapshot (Correlation Engine, Portfolio
Constructor).

Modelling conventions:
* TypeScript `number` values are embedded as `ℚ` (exact rationals); where
  the spec's mathematics forces real arithmetic (logarithms, square roots)
  we use `ℝ`.
* A TypeScript field that may be `undefined` is embedded as `Option`.
* `fetch` outcomes are embedded as an explicit outcome type: the network
  request may fail, or yield an HTTP response with an `ok` flag and a body
  whose JSON decoding may itself fail. A caught exception that makes the
  TypeScript function return a fallback value is a plain branch here, so
  "never throws" is totality of the embedded function.
-/

namespace Polyfund

/-! ## Data model of the frontend (services/polymarket.ts) -/

/-- The two actionable directions of a portfolio signal
(`action: 'BUY_YES' | 'BUY_NO'` in services/polymarket.ts). -/
inductive Act where
  | BUY_YES : Act
  | BUY_NO : Act
deriving DecidableEq, Repr

/-- `PortfolioItem` of services/polymarket.ts (lines 155-162). -/
structure PortfolioItem where
  question : String
  slug : String
  token_id : String
  correlation : ℚ
  weight : ℚ
  action : Act
deriving DecidableEq, Repr

/-- The `anchor` record inside `RecommendationResponse`
(services/polymarket.ts lines 143-151). -/
structure AnchorInfo where
  question : String
  slug : String
  token_id : String
  volume_usd : ℚ
  token_choice : String
  ai_reasoning : String
  ai_confidence : ℚ
deriving DecidableEq, Repr

/-- One `(date, value)` point of a persisted series, as read by
PortfolioCharts.tsx (`pt.date`, `pt.value`). -/
structure SeriesPoint where
  date : String
  value : ℚ
deriving DecidableEq, Repr

/-- One rolling-correlation point, as read by
`PortfolioCharts.rollingCorrData`: a date, a token identification and the
correlation value at that window end-date. -/
structure RollingPoint where
  date : String
  token_id : String
  correlation : ℚ
deriving DecidableEq, Repr

/-- The `price_series` object of the timeseries artifact: the components
access `price_series.anchor` (ScenarioSimulator, PortfolioCharts) plus
per-token series. -/
structure PriceSeriesMap where
  anchor : List SeriesPoint
  tokens : List (String × List SeriesPoint)
deriving DecidableEq, Repr

/-- The `pnl_curves` object of the timeseries artifact: PortfolioCharts
reads `pnl_curves.portfolio`; per-token curves sit beside it. -/
structure PnlCurvesMap where
  portfolio : List SeriesPoint
  tokens : List (String × List SeriesPoint)
deriving DecidableEq, Repr

/-- The persisted timeseries artifact: `price_series`,
`rolling_correlations` keyed by window size (PortfolioCharts reads key
`'7'`), and `pnl_curves`. -/
structure TimeseriesArtifact where
  price_series : PriceSeriesMap
  rolling_correlations : List (String × List RollingPoint)
  pnl_curves : PnlCurvesMap
deriving DecidableEq, Repr

/-- `RecommendationResponse` of services/polymarket.ts (lines 140-153).
The declared interface has `thesis`, `status`, `anchor` and `portfolio`;
it declares no `timeseries` field, while ScenarioSimulator reads
`data.timeseries?.price_series?.anchor` with optional chaining and
PortfolioCharts starts with an `if (!data.timeseries)` guard, so the
decoded response carries the timeseries artifact optionally. -/
structure RecommendationResponse where
  thesis : String
  status : String
  anchor : AnchorInfo
  portfolio : List PortfolioItem
  timeseries : Option TimeseriesArtifact
deriving DecidableEq, Repr

/-! ## Fetch outcomes

`fetch` in the TypeScript layer can (a) reject (network error), or
(b) resolve to a response with an `ok` flag, whose `json()` body decoding
can itself throw. -/

/-- Outcome of a `fetch` call as the frontend observes it. -/
inductive FetchOutcome (α : Type) where
  | networkError : FetchOutcome α
  | response (ok : Bool) (body : Except String α) : FetchOutcome α

/-- `fetchRecommendations` of services/polymarket.ts (lines 164-184):
POSTs the thesis, returns `null` when the response is not OK, returns the
decoded body when it is, and the surrounding `try`/`catch` turns a network
failure or a `json()` decoding throw into `null`. -/
def fetchRecommendations (o : FetchOutcome RecommendationResponse) :
    Option RecommendationResponse :=
  match o with
  | .networkError => none
  | .response ok body =>
    if ok then
      match body with
      | .ok r => some r
      | .error _ => none
    else none

/-! ## Scenario Simulator (TrendingCard.tsx, `ScenarioSimulator`) -/

/-- One row of `simulationResults`: the portfolio item spread together with
its `estimatedPnL` (TrendingCard.tsx lines 96-99). -/
structure SimResult where
  item : PortfolioItem
  estimatedPnL : ℚ
deriving DecidableEq, Repr

/-- `simulationResults` of ScenarioSimulator (TrendingCard.tsx lines
73-102): `deltaPct = (simulatedPrice - initialPrice) / 100`, each item's
`simulatedMove = correlation * deltaPct`, its P&L is `simulatedMove` for
BUY_YES and `-simulatedMove` for BUY_NO, stored scaled by 100 (percent). -/
def simulationResults (portfolio : List PortfolioItem)
    (simulatedPrice initialPrice : ℚ) : List SimResult :=
  let deltaPct := (simulatedPrice - initialPrice) / 100
  portfolio.map fun item =>
    let simulatedMove := item.correlation * deltaPct
    let estimatedPnL :=
      if item.action = Act.BUY_YES then simulatedMove else -simulatedMove
    ⟨item, estimatedPnL * 100⟩

/-- `totalPortfolioPnL` of ScenarioSimulator (TrendingCard.tsx lines
104-106): `reduce((acc, item) => acc + item.estimatedPnL * item.weight, 0)`. -/
def totalPortfolioPnL (results : List SimResult) : ℚ :=
  results.foldl (fun acc r => acc + r.estimatedPnL * r.item.weight) 0

/-! ## PortfolioCharts (PortfolioCharts.tsx)

The component renders the "No historical data available" fallback when
`data.timeseries` is absent, and otherwise prepares three datasets: the
portfolio P&L curve, the anchor price history and the 7-day rolling
correlations grouped by date. Locale date formatting
(`toLocaleDateString`) and string rendering (`toFixed`) are presentation
only and are embedded as the identity on the stored date and the exact
rational value. -/

/-- `data.timeseries!.rolling_correlations[windowKey] || []` — look up the
point list stored under a window-size key, empty when the key is absent. -/
def lookupWindow (rcs : List (String × List RollingPoint)) (key : String) :
    List RollingPoint :=
  match rcs.find? (fun e => e.1 = key) with
  | some e => e.2
  | none => []

/-- `data.portfolio.find(m => m.token_id === pt.token_id)` is truthy:
the point's token matches some portfolio item. -/
def matchedToken (portfolio : List PortfolioItem) (tid : String) : Bool :=
  portfolio.any fun m => m.token_id = tid

/-- One row of the rolling-correlation chart data: the `byDate[dateStr]`
object, holding the date and the correlations recorded under each
portfolio token's id. (The companion `<token_id>_name` legend-label keys of
the object are presentation only and are not embedded.) -/
structure DateGroup where
  date : String
  entries : List (String × ℚ)
deriving DecidableEq, Repr

/-- `byDate[dateStr][pt.token_id] = pt.correlation` — JavaScript object key
assignment: overwrite the binding in place if the key exists, else append
it. -/
def setEntry (entries : List (String × ℚ)) (k : String) (v : ℚ) :
    List (String × ℚ) :=
  match entries with
  | [] => [(k, v)]
  | e :: rest => if e.1 = k then (k, v) :: rest else e :: setEntry rest k v

/-- Process one raw point into the `byDate` record (PortfolioCharts.tsx
lines 53-64): the date's row object is created first thing if it does not
exist, and the correlation is recorded under the token id only when the
token matches a portfolio item (`matched`). A `Record`'s key order is
insertion order, so the record is a list of rows. -/
def addToGroups (groups : List DateGroup) (pt : RollingPoint)
    (matched : Bool) : List DateGroup :=
  match groups with
  | [] => [⟨pt.date, if matched then [(pt.token_id, pt.correlation)] else []⟩]
  | g :: gs =>
    if g.date = pt.date then
      { g with entries :=
          if matched then setEntry g.entries pt.token_id pt.correlation
          else g.entries } :: gs
    else g :: addToGroups gs pt matched

/-- The body of `rollingCorrData` after the window lookup: fold all raw
points into the `byDate` record and return its rows (`Object.values`). -/
def groupPoints (portfolio : List PortfolioItem)
    (points : List RollingPoint) : List DateGroup :=
  points.foldl
    (fun gs pt => addToGroups gs pt (matchedToken portfolio pt.token_id)) []

/-- `rollingCorrData` of PortfolioCharts.tsx (lines 47-67): read the points
under window key `'7'`, group them by date, and record each matched
point's correlation under its token id. -/
def rollingCorrData (portfolio : List PortfolioItem)
    (rcs : List (String × List RollingPoint)) : List DateGroup :=
  groupPoints portfolio (lookupWindow rcs "7")

/-- `pnlData` of PortfolioCharts.tsx (lines 29-35): the portfolio P&L curve
as `(date, value * 100)` rows. -/
def pnlData (ts : TimeseriesArtifact) : List (String × ℚ) :=
  ts.pnl_curves.portfolio.map fun pt => (pt.date, pt.value * 100)

/-- `anchorPriceData` of PortfolioCharts.tsx (lines 39-44): the anchor
price history as `(date, value * 100)` rows (cents). -/
def anchorPriceData (ts : TimeseriesArtifact) : List (String × ℚ) :=
  ts.price_series.anchor.map fun pt => (pt.date, pt.value * 100)

/-- What PortfolioCharts renders: the no-data fallback or the three chart
datasets. -/
inductive ChartsView where
  | noData : ChartsView
  | charts (pnl : List (String × ℚ)) (anchorPrice : List (String × ℚ))
      (rolling : List DateGroup) : ChartsView
deriving DecidableEq, Repr

/-- `PortfolioCharts` (PortfolioCharts.tsx lines 23-67): when
`data.timeseries` is absent the component returns the
"No historical data available" fallback; otherwise it builds the three
datasets from the artifact and the portfolio. -/
def portfolioCharts (data : RecommendationResponse) : ChartsView :=
  match data.timeseries with
  | none => ChartsView.noData
  | some ts =>
    ChartsView.charts (pnlData ts) (anchorPriceData ts)
      (rollingCorrData data.portfolio ts.rolling_correlations)

/-- A concrete response exactly as `fetchRecommendations` can decode it
from a well-typed server body: it has an anchor and a portfolio, and no
`timeseries` field (the `RecommendationResponse` interface of
services/polymarket.ts declares none). -/
def sampleResponseNoTimeseries : RecommendationResponse :=
  { thesis := "Democrats win 2026 Midterms"
    status := "ok"
    anchor :=
      { question := "Will Democrats win the 2026 Midterms?"
        slug := "democrats-2026"
        token_id := "tok-anchor"
        volume_usd := 120000
        token_choice := "YES"
        ai_reasoning := "direct match"
        ai_confidence := 9/10 }
    portfolio :=
      [{ question := "Will turnout exceed 60%?"
         slug := "turnout-60"
         token_id := "tok-1"
         correlation := 1/2
         weight := 1
         action := Act.BUY_YES }]
    timeseries := none }

/-! ## Trending markets (services/polymarket.ts, `fetchTrendingMarkets`) -/

/-- `GammaMarket` of services/polymarket.ts (lines 10-26). `outcomePrices`
is declared as a JSON string; the code only consumes it through
`JSON.parse` plus `parseFloat` on the first entry, so the field is
embedded as the outcome of that parse: absent (an empty string is falsy
and behaves as absent), a parse failure (`JSON.parse` throws, caught by
the code), or the parsed list of numbers. -/
structure GammaMarket where
  question : String
  volume : ℚ
  tags : Option (List String)
  outcomePrices : Option (Except String (List ℚ))
  lastTradePrice : Option ℚ
  bestAsk : Option ℚ
  bestBid : Option ℚ
  clobTokenIds : Option String
  active : Bool
  closed : Bool
  conditionId : String
  volumeNum : Option ℚ
  icon : Option String
  image : Option String
deriving Repr

/-- `GammaEvent` of services/polymarket.ts (lines 28-35). -/
structure GammaEvent where
  id : String
  title : String
  markets : List GammaMarket
  icon : Option String
  image : Option String
deriving Repr

/-- `TrendingMarket` of services/polymarket.ts (lines 1-8). `probability`
is `Math.round`ed, hence an integer; `volume` is kept numeric: the
`Intl.NumberFormat` compact-currency rendering is presentation only and
is not embedded. -/
structure TrendingMarket where
  question : String
  probability : ℤ
  volume : ℚ
  tag : String
  icon : String
  spread : Option String
deriving DecidableEq, Repr

/-- `m.volume || m.volumeNum || 0` — JavaScript `||` falls through on the
falsy number 0 and on an absent field. -/
def effVol (m : GammaMarket) : ℚ :=
  if m.volume = 0 then m.volumeNum.getD 0 else m.volume

/-- `m.active && !m.closed` — the market is active and open. -/
def activeOpen (m : GammaMarket) : Bool :=
  m.active && !m.closed

/-- Insert a market into a volume-descending list, after every market of
at least its volume: the insertion step of a stable descending sort, the
embedded form of `[...markets].sort((a, b) => volB - volA)`. -/
def insertVolDesc (m : GammaMarket) : List GammaMarket → List GammaMarket
  | [] => [m]
  | x :: xs =>
    if effVol x < effVol m then m :: x :: xs else x :: insertVolDesc m xs

/-- Stable sort of the markets by `effVol`, descending. -/
def sortVolDesc (l : List GammaMarket) : List GammaMarket :=
  l.foldr insertVolDesc []

/-- Market selection per event (services/polymarket.ts lines 54-76): start
with the first active and open market, else the first market; when the
event has more than one market this is replaced by the highest-volume
active and open market of the volume-sorted list, falling back to its
highest-volume market overall. `none` exactly when the event has no
markets. -/
def selectBestMarket (e : GammaEvent) : Option GammaMarket :=
  let best0 :=
    match e.markets.find? (fun m => activeOpen m) with
    | some m => some m
    | none => e.markets.head?
  if 1 < e.markets.length then
    match (sortVolDesc e.markets).find? (fun m => activeOpen m) with
    | some m => some m
    | none => (sortVolDesc e.markets).head?
  else best0

/-- The probability the card displays, before rounding
(services/polymarket.ts lines 80-101): `lastTradePrice * 100` when
`lastTradePrice` is a number; else the bid-ask midpoint times 100 when
both `bestAsk` and `bestBid` are numbers; else 100 times the first parsed
`outcomePrices` entry when the parse succeeds on a non-empty list; else
the default 50 (kept also on a parse failure, which is caught). -/
def rawProbability (m : GammaMarket) : ℚ :=
  match m.lastTradePrice with
  | some p => p * 100
  | none =>
    match m.bestAsk, m.bestBid with
    | some a, some b => ((a + b) / 2) * 100
    | _, _ =>
      match m.outcomePrices with
      | some (Except.ok (p :: _)) => p * 100
      | _ => 50

/-- `x || fallback` on strings: an absent or empty string is falsy. -/
def strOr (a : Option String) (b : String) : String :=
  match a with
  | some s => if s = "" then b else s
  | none => b

/-- Icon resolution (services/polymarket.ts line 112): market icon, then
market image, then event icon, then event image, then the chart emoji. -/
def resolveIcon (e : GammaEvent) (m : GammaMarket) : String :=
  strOr m.icon (strOr m.image (strOr e.icon (strOr e.image "📈")))

/-- The `TrendingMarket` card pushed for a selected market
(services/polymarket.ts lines 114-121); `Math.round` is Mathlib's `round`
(both are floor of the value plus one half). -/
def mkTrendingMarket (e : GammaEvent) (m : GammaMarket) : TrendingMarket :=
  { question := if m.question = "" then e.title else m.question
    probability := round (rawProbability m)
    volume := effVol m
    tag := "Top Liquid"
    icon := resolveIcon e m
    spread := none }

/-- The contribution of one event to the trending list: nothing when no
market can be selected (`if (!bestMarket) continue`), else one card. -/
def trendingOfEvent (e : GammaEvent) : Option TrendingMarket :=
  (selectBestMarket e).map (mkTrendingMarket e)

/-- `fetchTrendingMarkets` of services/polymarket.ts (lines 37-131): `[]`
when the response is not OK, when `json()` fails to decode, or when the
fetch itself rejects (both caught); otherwise one card per event with a
selectable market, cut to the first `limit` (`slice(0, limit)`). -/
def fetchTrendingMarkets (o : FetchOutcome (List GammaEvent)) (limit : ℕ) :
    List TrendingMarket :=
  match o with
  | .networkError => []
  | .response ok body =>
    if ok then
      match body with
      | .ok events => (events.filterMap trendingOfEvent).take limit
      | .error _ => []
    else []

/-! ## Spec-modelled backend stages

The repository snapshot holds only the frontend sources; the backend
pipeline the README describes (`correlation.py` with Pearson correlation,
signal generation and portfolio weights) is not among them. The
Correlation Engine (spec §4.5) and the Portfolio Constructor (spec §4.6)
are therefore modelled from the specification's words. -/

/-- Modelled from the spec: a `Signal` row (§3) as the Portfolio
Constructor consumes it — token identity, question, `correlation`
(null when data was insufficient), overlap count and volume. -/
structure Signal where
  token_id : String
  question : String
  correlation : Option ℚ
  n_data_points : ℕ
  volume_usd : ℚ
deriving DecidableEq, Repr

/-- Arithmetic mean of a list of reals (0 for the empty list). -/
noncomputable def mean (l : List ℝ) : ℝ := l.sum / l.length

/-- Modelled from the spec: the covariance numerator of the Correlation
Engine (§4.5) — the sum of products of deviations about the two means,
over the aligned return pairs. -/
noncomputable def covSum (pairs : List (ℝ × ℝ)) : ℝ :=
  (pairs.map fun q =>
    (q.1 - mean (pairs.map Prod.fst)) * (q.2 - mean (pairs.map Prod.snd))).sum

/-- Sum of squared deviations of the first coordinates about their mean. -/
noncomputable def devSqX (pairs : List (ℝ × ℝ)) : ℝ :=
  (pairs.map fun q => (q.1 - mean (pairs.map Prod.fst)) ^ 2).sum

/-- Sum of squared deviations of the second coordinates about their mean. -/
noncomputable def devSqY (pairs : List (ℝ × ℝ)) : ℝ :=
  (pairs.map fun q => (q.2 - mean (pairs.map Prod.snd)) ^ 2).sum

/-- Modelled from the spec: Pearson correlation (§4.5) on the aligned
return pairs — the standard formula, covariance divided by the product of
the standard deviations (each normalized by the pair count), with zero
variance guarded to a correlation of 0 rather than NaN. -/
noncomputable def pearson (pairs : List (ℝ × ℝ)) : ℝ :=
  if Real.sqrt (devSqX pairs / pairs.length) = 0
      ∨ Real.sqrt (devSqY pairs / pairs.length) = 0 then 0
  else
    (covSum pairs / pairs.length)
      / (Real.sqrt (devSqX pairs / pairs.length)
          * Real.sqrt (devSqY pairs / pairs.length))

/-- Modelled from the spec: the correlation field `correlate` (§4.5) gives
a Signal — null when the aligned overlap has fewer than `min_points`
points, else the Pearson correlation of the aligned returns. -/
noncomputable def correlate (pairs : List (ℝ × ℝ)) (min_points : ℕ) :
    Option ℝ :=
  if pairs.length < min_points then none else some (pearson pairs)

/-- Modelled from the spec: the Portfolio Constructor's retention filter
(§4.6) — a signal is kept when its correlation is present and nonzero
(`correlation == 0` is excluded, no actionable signal) and its volume
meets the floor. -/
def isRetained (min_volume : ℚ) (s : Signal) : Bool :=
  match s.correlation with
  | none => false
  | some c => decide (c ≠ 0) && decide (min_volume ≤ s.volume_usd)

/-- The retained signals, in input order. -/
def retained (signals : List Signal) (min_volume : ℚ) : List Signal :=
  signals.filter (isRetained min_volume)

/-- Modelled from the spec: the raw conviction weight (§4.6),
`|correlation| * log(1 + volume_usd)` — liquidity-dampened sizing. -/
noncomputable def rawWeight (s : Signal) : ℝ :=
  |((s.correlation.getD 0 : ℚ) : ℝ)| * Real.log (1 + (s.volume_usd : ℝ))

/-- Modelled from the spec: a constructed `PortfolioItem` row (§3) — the
signal data plus the normalized `weight` and `weight_pct`. -/
structure SpecPortfolioItem where
  token_id : String
  question : String
  correlation : ℚ
  action : Act
  n_data_points : ℕ
  volume_usd : ℚ
  weight : ℝ
  weight_pct : ℝ

/-- Modelled from the spec: the Portfolio Constructor (§4.6). Retains
signals per `isRetained`, maps `correlation > 0` to BUY_YES and
`correlation < 0` to BUY_NO, and normalizes the raw weights so they sum
to 1 across the retained set. (The spec's tie-broken descending row
ordering is not modelled; the properties verified about `construct` are
order-independent.) -/
noncomputable def construct (signals : List Signal) (min_volume : ℚ) :
    List SpecPortfolioItem :=
  (retained signals min_volume).map fun s =>
    { token_id := s.token_id
      question := s.question
      correlation := s.correlation.getD 0
      action := if 0 < s.correlation.getD 0 then Act.BUY_YES else Act.BUY_NO
      n_data_points := s.n_data_points
      volume_usd := s.volume_usd
      weight := rawWeight s
        / ((retained signals min_volume).map rawWeight).sum
      weight_pct := rawWeight s
        / ((retained signals min_volume).map rawWeight).sum * 100 }

/-- A concrete signal list on which the Portfolio Constructor's
normalization hypotheses hold. -/
def exampleSignals : List Signal :=
  [{ token_id := "tok-1"
     question := "q1"
     correlation := some (1/2)
     n_data_points := 30
     volume_usd := 100 },
   { token_id := "tok-2"
     question := "q2"
     correlation := some (-1/4)
     n_data_points := 25
     volume_usd := 50 }]

/-! # Theorems -/

/-- Folding `acc + f x` over a list starting at `c` is `c` plus the sum of
the mapped list. -/
theorem foldl_add_map_sum {α : Type} (f : α → ℚ) (l : List α) (c : ℚ) :
    l.foldl (fun acc x => acc + f x) c = c + (l.map f).sum := by
  induction l generalizing c with
  | nil => simp
  | cons x xs ih => simp [ih, add_assoc]

/-- C1. For every recommendation portfolio and every simulated anchor price
move `simulatedPrice - initialPrice`, the Scenario Simulator's estimated
P&L per item is `correlation * delta` for a BUY_YES item and
`-(correlation * delta)` for a BUY_NO item, and the total estimated
portfolio P&L is the sum over all portfolio items of
`weight * estimated P&L`. -/
theorem scenario_simulator_pnl (portfolio : List PortfolioItem)
    (simulatedPrice initialPrice : ℚ) :
    (simulationResults portfolio simulatedPrice initialPrice).map
        (fun r => r.estimatedPnL)
      = portfolio.map (fun item =>
          if item.action = Act.BUY_YES then
            item.correlation * (simulatedPrice - initialPrice)
          else
            -(item.correlation * (simulatedPrice - initialPrice)))
    ∧ totalPortfolioPnL (simulationResults portfolio simulatedPrice initialPrice)
      = ((simulationResults portfolio simulatedPrice initialPrice).map
          (fun r => r.item.weight * r.estimatedPnL)).sum := by
  constructor
  · simp only [simulationResults, List.map_map]
    refine List.map_congr_left ?_
    intro item _
    by_cases h : item.action = Act.BUY_YES <;>
      simp only [Function.comp_apply, h, if_true, if_false, reduceIte] <;>
      field_simp
  · rw [totalPortfolioPnL,
      foldl_add_map_sum (fun r : SimResult => r.estimatedPnL * r.item.weight)]
    rw [zero_add]
    congr 1
    refine List.map_congr_left ?_
    intro r _
    exact mul_comm _ _

/-- C4, counterexample. A decoded `RecommendationResponse` need not carry a
timeseries artifact: `fetchRecommendations` performs no validation, the
declared interface has no `timeseries` field, and here a concrete OK
response decodes with `timeseries` absent. -/
theorem response_timeseries_missing_cex :
    fetchRecommendations (.response true (.ok sampleResponseNoTimeseries))
      = some sampleResponseNoTimeseries
    ∧ sampleResponseNoTimeseries.timeseries = none
    ∧ portfolioCharts sampleResponseNoTimeseries = ChartsView.noData := by
  refine ⟨rfl, rfl, rfl⟩

/-- C4, amended. A decoded response is a record with an anchor and an
ordered portfolio list, but its timeseries field (price_series,
rolling_correlations, pnl_curves) is optional: PortfolioCharts renders the
no-data fallback exactly when it is absent, and builds its datasets from
the artifact when it is present. -/
theorem response_timeseries_optional (r : RecommendationResponse) :
    (r.timeseries = none → portfolioCharts r = ChartsView.noData)
    ∧ (∀ ts : TimeseriesArtifact, r.timeseries = some ts →
        portfolioCharts r
          = ChartsView.charts (pnlData ts) (anchorPriceData ts)
              (rollingCorrData r.portfolio ts.rolling_correlations)) := by
  constructor
  · intro h
    simp [portfolioCharts, h]
  · intro ts h
    simp [portfolioCharts, h]

/-! ### Rolling-correlation grouping lemmas (C7) -/

/-- Every binding of `setEntry entries k v` is the new binding or an old one. -/
theorem mem_setEntry {entries : List (String × ℚ)} {k : String} {v : ℚ}
    {ev : String × ℚ} (h : ev ∈ setEntry entries k v) :
    ev = (k, v) ∨ ev ∈ entries := by
  induction entries with
  | nil => simpa [setEntry] using h
  | cons e rest ih =>
    by_cases he : e.1 = k
    · simp only [setEntry, he, if_true, reduceIte, List.mem_cons] at h
      rcases h with h | h
      · exact Or.inl h
      · exact Or.inr (List.mem_cons_of_mem _ h)
    · simp only [setEntry, he, if_false, reduceIte, List.mem_cons] at h
      rcases h with h | h
      · exact Or.inr (h ▸ List.mem_cons_self _ _)
      · rcases ih h with h' | h'
        · exact Or.inl h'
        · exact Or.inr (List.mem_cons_of_mem _ h')

/-- `setEntry` leaves the new binding in the list. -/
theorem setEntry_mem_self (entries : List (String × ℚ)) (k : String) (v : ℚ) :
    (k, v) ∈ setEntry entries k v := by
  induction entries with
  | nil => simp [setEntry]
  | cons e rest ih =>
    by_cases he : e.1 = k
    · simp [setEntry, he]
    · simp only [setEntry, he, if_false, reduceIte, List.mem_cons]
      exact Or.inr ih

/-- `setEntry` keeps every key that was present. -/
theorem setEntry_keeps_key {entries : List (String × ℚ)} {k₀ : String}
    {c : ℚ} (k : String) (v : ℚ) (h : (k₀, c) ∈ entries) :
    ∃ c', (k₀, c') ∈ setEntry entries k v := by
  by_cases hk : k₀ = k
  · exact ⟨v, hk ▸ setEntry_mem_self entries k v⟩
  · induction entries with
    | nil => simp at h
    | cons e rest ih =>
      rcases List.mem_cons.mp h with h' | h'
      · by_cases he : e.1 = k
        · rw [← h'] at he
          exact absurd he hk
        · refine ⟨c, ?_⟩
          simp only [setEntry, he, if_false, reduceIte, List.mem_cons]
          exact Or.inl h'
      · by_cases he : e.1 = k
        · refine ⟨c, ?_⟩
          simp only [setEntry, he, if_true, reduceIte, List.mem_cons]
          exact Or.inr h'
        · rcases ih h' with ⟨c', hc'⟩
          refine ⟨c', ?_⟩
          simp only [setEntry, he, if_false, reduceIte, List.mem_cons]
          exact Or.inr hc'

/-- The dates of `addToGroups` are the old dates, extended with the
point's date at the end exactly when that date was not yet present. -/
theorem dates_addToGroups (gs : List DateGroup) (pt : RollingPoint)
    (m : Bool) :
    ((addToGroups gs pt m).map (fun g => g.date) = gs.map (fun g => g.date)
        ∧ pt.date ∈ gs.map (fun g => g.date))
    ∨ ((addToGroups gs pt m).map (fun g => g.date)
          = gs.map (fun g => g.date) ++ [pt.date]
        ∧ pt.date ∉ gs.map (fun g => g.date)) := by
  induction gs with
  | nil => right; simp [addToGroups]
  | cons g rest ih =>
    by_cases hd : g.date = pt.date
    · left
      constructor
      · simp [addToGroups, hd]
      · simp [hd]
    · rcases ih with ⟨h1, h2⟩ | ⟨h1, h2⟩
      · left
        constructor
        · simp [addToGroups, hd, h1]
        · simp only [List.map_cons, List.mem_cons]
          exact Or.inr h2
      · right
        constructor
        · simp [addToGroups, hd, h1]
        · simp only [List.map_cons, List.mem_cons]
          rintro (h | h)
          · exact hd h.symm
          · exact h2 h

/-- `addToGroups` keeps the group dates duplicate-free. -/
theorem nodup_dates_addToGroups {gs : List DateGroup} {pt : RollingPoint}
    {m : Bool} (h : (gs.map (fun g => g.date)).Nodup) :
    ((addToGroups gs pt m).map (fun g => g.date)).Nodup := by
  rcases dates_addToGroups gs pt m with ⟨h1, _⟩ | ⟨h1, h2⟩
  · rw [h1]; exact h
  · rw [h1]
    refine List.Nodup.append h (List.nodup_singleton _) ?_
    intro a ha hb
    simp only [List.mem_singleton] at hb
    exact h2 (hb ▸ ha)

/-- Provenance of a binding after one `addToGroups` step: it was already in
a group of the same date, or it is the processed point's binding, recorded
only when the point matched (`m = true`) and in the group of its date. -/
theorem addToGroups_sound {gs : List DateGroup} {pt : RollingPoint}
    {m : Bool} {g : DateGroup} {ev : String × ℚ}
    (hg : g ∈ addToGroups gs pt m) (hev : ev ∈ g.entries) :
    (∃ g₀ ∈ gs, g₀.date = g.date ∧ ev ∈ g₀.entries)
    ∨ (m = true ∧ g.date = pt.date ∧ ev = (pt.token_id, pt.correlation)) := by
  induction gs with
  | nil =>
    simp only [addToGroups, List.mem_singleton] at hg
    subst hg
    cases m with
    | false => simp at hev
    | true =>
      simp only [if_true, reduceIte, List.mem_singleton] at hev
      exact Or.inr ⟨rfl, rfl, hev⟩
  | cons g₀ rest ih =>
    by_cases hd : g₀.date = pt.date
    · rw [addToGroups, if_pos hd] at hg
      rcases List.mem_cons.mp hg with hg' | hg'
      · subst hg'
        simp only at hev
        cases m with
        | false =>
          simp only [Bool.false_eq_true, if_false, reduceIte] at hev
          exact Or.inl ⟨g₀, List.mem_cons_self _ _, rfl, hev⟩
        | true =>
          simp only [if_true, reduceIte] at hev
          rcases mem_setEntry hev with h | h
          · exact Or.inr ⟨rfl, hd, h⟩
          · exact Or.inl ⟨g₀, List.mem_cons_self _ _, rfl, h⟩
      · exact Or.inl ⟨g, List.mem_cons_of_mem _ hg', rfl, hev⟩
    · rw [addToGroups, if_neg hd] at hg
      rcases List.mem_cons.mp hg with hg' | hg'
      · subst hg'
        exact Or.inl ⟨g, List.mem_cons_self _ _, rfl, hev⟩
      · rcases ih hg' with ⟨g₁, hg₁, hdate, hmem⟩ | h
        · exact Or.inl ⟨g₁, List.mem_cons_of_mem _ hg₁, hdate, hmem⟩
        · exact Or.inr h

/-- `addToGroups` preserves "some group of date `d` holds key `k`". -/
theorem addToGroups_preserves {gs : List DateGroup} {d k : String}
    (pt : RollingPoint) (m : Bool)
    (h : ∃ g ∈ gs, g.date = d ∧ ∃ c, (k, c) ∈ g.entries) :
    ∃ g ∈ addToGroups gs pt m, g.date = d ∧ ∃ c, (k, c) ∈ g.entries := by
  induction gs with
  | nil => simp at h
  | cons g₀ rest ih =>
    rcases h with ⟨g, hg, hd, c, hc⟩
    by_cases hpd : g₀.date = pt.date
    · rw [addToGroups, if_pos hpd]
      rcases List.mem_cons.mp hg with hg' | hg'
      · subst hg'
        refine ⟨_, List.mem_cons_self _ _, hd, ?_⟩
        show ∃ c', (k, c') ∈
          (if m then setEntry g.entries pt.token_id pt.correlation
           else g.entries)
        cases m with
        | false => exact ⟨c, hc⟩
        | true =>
          simp only [if_true, reduceIte]
          exact setEntry_keeps_key pt.token_id pt.correlation hc
      · exact ⟨g, List.mem_cons_of_mem _ hg', hd, c, hc⟩
    · rw [addToGroups, if_neg hpd]
      rcases List.mem_cons.mp hg with hg' | hg'
      · subst hg'
        exact ⟨g, List.mem_cons_self _ _, hd, c, hc⟩
      · rcases ih ⟨g, hg', hd, c, hc⟩ with ⟨g₁, hg₁, hd₁, hc₁⟩
        exact ⟨g₁, List.mem_cons_of_mem _ hg₁, hd₁, hc₁⟩

/-- Processing a matched point records its token under its date. -/
theorem addToGroups_creates (gs : List DateGroup) (pt : RollingPoint) :
    ∃ g ∈ addToGroups gs pt true, g.date = pt.date
      ∧ ∃ c, (pt.token_id, c) ∈ g.entries := by
  induction gs with
  | nil =>
    refine ⟨⟨pt.date, [(pt.token_id, pt.correlation)]⟩, ?_, rfl,
      pt.correlation, by simp⟩
    simp [addToGroups]
  | cons g₀ rest ih =>
    by_cases hd : g₀.date = pt.date
    · rw [addToGroups, if_pos hd]
      refine ⟨_, List.mem_cons_self _ _, hd, ?_⟩
      show ∃ c, (pt.token_id, c) ∈
        (if true = true then setEntry g₀.entries pt.token_id pt.correlation
         else g₀.entries)
      simp only [if_true, reduceIte]
      exact ⟨pt.correlation, setEntry_mem_self _ _ _⟩
    · rw [addToGroups, if_neg hd]
      rcases ih with ⟨g, hg, hdate, hc⟩
      exact ⟨g, List.mem_cons_of_mem _ hg, hdate, hc⟩

/-- Soundness of the grouping fold: with every processed point drawn from
`all`, every recorded binding of every group is a matched token whose
value comes from a point of `all` with the group's date. -/
theorem groupPoints_fold_sound (portfolio : List PortfolioItem)
    (all : List RollingPoint) :
    ∀ (ps : List RollingPoint) (acc : List DateGroup), (∀ g ∈ acc, ∀ ev ∈ g.entries,
        matchedToken portfolio ev.1 = true
        ∧ ∃ pt ∈ all, pt.date = g.date ∧ pt.token_id = ev.1
            ∧ pt.correlation = ev.2) →
      (∀ pt ∈ ps, pt ∈ all) →
      ∀ g ∈ ps.foldl
          (fun gs pt => addToGroups gs pt (matchedToken portfolio pt.token_id))
          acc,
        ∀ ev ∈ g.entries,
          matchedToken portfolio ev.1 = true
          ∧ ∃ pt ∈ all, pt.date = g.date ∧ pt.token_id = ev.1
              ∧ pt.correlation = ev.2 := by
  intro ps
  induction ps with
  | nil => intro acc hacc _ g hg; exact hacc g hg
  | cons p ps ih =>
    intro acc hacc hsub g hg
    simp only [List.foldl_cons] at hg
    refine ih _ ?_ (fun pt hpt => hsub pt (List.mem_cons_of_mem _ hpt)) g hg
    intro g' hg' ev hev
    rcases addToGroups_sound hg' hev with ⟨g₀, hg₀, hdate, hmem⟩ | ⟨hm, hdate, hev'⟩
    · rcases hacc g₀ hg₀ ev hmem with ⟨h1, pt, hpt, h2, h3, h4⟩
      exact ⟨h1, pt, hpt, hdate ▸ h2, h3, h4⟩
    · subst hev'
      exact ⟨hm, p, hsub p (List.mem_cons_self _ _), hdate.symm, rfl, rfl⟩

/-- The grouping fold preserves "some group of date `d` holds key `k`". -/
theorem groupPoints_fold_preserves (portfolio : List PortfolioItem)
    {d k : String} :
    ∀ (ps : List RollingPoint) (acc : List DateGroup), (∃ g ∈ acc, g.date = d ∧ ∃ c, (k, c) ∈ g.entries) →
      ∃ g ∈ ps.foldl
          (fun gs pt => addToGroups gs pt (matchedToken portfolio pt.token_id))
          acc,
        g.date = d ∧ ∃ c, (k, c) ∈ g.entries := by
  intro ps
  induction ps with
  | nil => intro acc h; exact h
  | cons p ps ih =>
    intro acc h
    simp only [List.foldl_cons]
    exact ih _ (addToGroups_preserves p _ h)

/-- Completeness of the grouping fold: every matched point of the processed
list ends with its token recorded in the group of its date. -/
theorem groupPoints_fold_complete (portfolio : List PortfolioItem) :
    ∀ (ps : List RollingPoint) (acc : List DateGroup) (pt : RollingPoint), pt ∈ ps →
      matchedToken portfolio pt.token_id = true →
      ∃ g ∈ ps.foldl
          (fun gs pt => addToGroups gs pt (matchedToken portfolio pt.token_id))
          acc,
        g.date = pt.date ∧ ∃ c, (pt.token_id, c) ∈ g.entries := by
  intro ps
  induction ps with
  | nil => intro acc pt h; simp at h
  | cons p ps ih =>
    intro acc pt hmem hmatch
    rcases List.mem_cons.mp hmem with h | h
    · subst h
      simp only [List.foldl_cons, hmatch]
      exact groupPoints_fold_preserves portfolio ps _
        (addToGroups_creates acc pt)
    · exact ih _ pt h hmatch

/-- The grouping fold keeps group dates duplicate-free. -/
theorem groupPoints_fold_nodup (portfolio : List PortfolioItem) :
    ∀ (ps : List RollingPoint) (acc : List DateGroup), ((acc.map (fun g => g.date)).Nodup) →
      (((ps.foldl
          (fun gs pt => addToGroups gs pt (matchedToken portfolio pt.token_id))
          acc).map (fun g => g.date)).Nodup) := by
  intro ps
  induction ps with
  | nil => intro acc h; exact h
  | cons p ps ih =>
    intro acc h
    simp only [List.foldl_cons]
    exact ih _ (nodup_dates_addToGroups h)

/-- C7. The persisted rolling correlations are keyed by window size and
each point carries a date, a token id and a correlation; the frontend's
7-day chart reads the points under window key `'7'` and groups them by
date: the produced rows have pairwise distinct dates, every recorded
binding is a matched portfolio token whose value comes from a raw point of
that date and token (so every point whose token matches no portfolio item
is dropped), and every matched point gets its token recorded in the row of
its date. -/
theorem rolling_corr_grouping (portfolio : List PortfolioItem)
    (rcs : List (String × List RollingPoint)) :
    (((rollingCorrData portfolio rcs).map (fun g => g.date)).Nodup)
    ∧ (∀ g ∈ rollingCorrData portfolio rcs, ∀ ev ∈ g.entries,
        matchedToken portfolio ev.1 = true
        ∧ ∃ pt ∈ lookupWindow rcs "7", pt.date = g.date ∧ pt.token_id = ev.1
            ∧ pt.correlation = ev.2)
    ∧ (∀ pt ∈ lookupWindow rcs "7",
        matchedToken portfolio pt.token_id = true →
        ∃ g ∈ rollingCorrData portfolio rcs,
          g.date = pt.date ∧ ∃ c, (pt.token_id, c) ∈ g.entries) := by
  refine ⟨?_, ?_, ?_⟩
  · exact groupPoints_fold_nodup portfolio _ [] (by simp)
  · exact groupPoints_fold_sound portfolio (lookupWindow rcs "7") _ []
      (by simp) (fun pt hpt => hpt)
  · intro pt hpt hmatch
    exact groupPoints_fold_complete portfolio _ [] pt hpt hmatch

/-- C5. `fetchRecommendations` is a total function of the fetch outcome
(the embedded form of "never throws"): it returns the decoded response
exactly when the HTTP response is OK and the body decodes, and `none` when
the body fails to decode, when the server responds non-OK (which is how the
typed no-anchor failure surfaces), or when the network request itself
fails. -/
theorem fetch_recommendations_no_throw
    (r : RecommendationResponse) (err : String)
    (body : Except String RecommendationResponse) :
    fetchRecommendations (.response true (.ok r)) = some r
    ∧ fetchRecommendations (.response true (.error err)) = none
    ∧ fetchRecommendations (.response false body) = none
    ∧ fetchRecommendations .networkError = none := by
  refine ⟨rfl, rfl, rfl, rfl⟩

/-! ### Trending-market lemmas (C8, C9, C10) -/

/-- C8. `fetchTrendingMarkets` is a total function of the fetch outcome
("never throws"): it is `[]` on a network failure, a non-OK response or a
body that fails to decode, and otherwise returns at most `limit` cards and
at most one card per event of the fetched catalog. -/
theorem fetch_trending_markets_safe (limit : ℕ) (err : String)
    (body : Except String (List GammaEvent)) (events : List GammaEvent) :
    fetchTrendingMarkets .networkError limit = []
    ∧ fetchTrendingMarkets (.response false body) limit = []
    ∧ fetchTrendingMarkets (.response true (.error err)) limit = []
    ∧ (fetchTrendingMarkets (.response true (.ok events)) limit).length ≤ limit
    ∧ (fetchTrendingMarkets (.response true (.ok events)) limit).length
        ≤ events.length := by
  refine ⟨rfl, rfl, rfl, ?_, ?_⟩
  · show ((events.filterMap trendingOfEvent).take limit).length ≤ limit
    rw [List.length_take]
    exact min_le_left _ _
  · show ((events.filterMap trendingOfEvent).take limit).length ≤ events.length
    calc ((events.filterMap trendingOfEvent).take limit).length
        ≤ (events.filterMap trendingOfEvent).length := by
          rw [List.length_take]; exact min_le_right _ _
      _ ≤ events.length := List.length_filterMap_le _ _

/-- Inserting into the sorted list permutes consing. -/
theorem insertVolDesc_perm (m : GammaMarket) (l : List GammaMarket) :
    List.Perm (insertVolDesc m l) (m :: l) := by
  induction l with
  | nil => simp [insertVolDesc]
  | cons x xs ih =>
    by_cases h : effVol x < effVol m
    · simp [insertVolDesc, h]
    · rw [insertVolDesc, if_neg h]
      exact (ih.cons x).trans (List.Perm.swap m x xs)

/-- The volume sort permutes its input. -/
theorem sortVolDesc_perm (l : List GammaMarket) :
    List.Perm (sortVolDesc l) l := by
  induction l with
  | nil => simp [sortVolDesc]
  | cons x xs ih =>
    have : sortVolDesc (x :: xs) = insertVolDesc x (sortVolDesc xs) := rfl
    rw [this]
    exact (insertVolDesc_perm x (sortVolDesc xs)).trans (ih.cons x)

/-- Membership transfers between a market list and its volume sort. -/
theorem mem_sortVolDesc {a : GammaMarket} {l : List GammaMarket} :
    a ∈ sortVolDesc l ↔ a ∈ l :=
  (sortVolDesc_perm l).mem_iff

/-- Inserting keeps the list volume-descending. -/
theorem pairwise_insertVolDesc (m : GammaMarket) {l : List GammaMarket}
    (h : l.Pairwise (fun a b => effVol b ≤ effVol a)) :
    (insertVolDesc m l).Pairwise (fun a b => effVol b ≤ effVol a) := by
  induction l with
  | nil => simp [insertVolDesc]
  | cons x xs ih =>
    rcases List.pairwise_cons.mp h with ⟨hx, hxs⟩
    by_cases hlt : effVol x < effVol m
    · rw [insertVolDesc, if_pos hlt]
      refine List.pairwise_cons.mpr ⟨?_, h⟩
      intro y hy
      rcases List.mem_cons.mp hy with rfl | hy
      · exact hlt.le
      · exact (hx y hy).trans hlt.le
    · rw [insertVolDesc, if_neg hlt]
      refine List.pairwise_cons.mpr ⟨?_, ih hxs⟩
      intro y hy
      rcases List.mem_cons.mp ((insertVolDesc_perm m xs).mem_iff.mp hy)
        with h' | h'
      · exact h' ▸ not_lt.mp hlt
      · exact hx y h'

/-- The volume sort is volume-descending. -/
theorem pairwise_sortVolDesc (l : List GammaMarket) :
    (sortVolDesc l).Pairwise (fun a b => effVol b ≤ effVol a) := by
  induction l with
  | nil => simp [sortVolDesc]
  | cons x xs ih => exact pairwise_insertVolDesc x ih

/-- In a volume-descending list, `find?` returns an element of maximal
volume among those satisfying the predicate. -/
theorem find?_max_of_sorted {l : List GammaMarket}
    (hs : l.Pairwise (fun a b => effVol b ≤ effVol a))
    {p : GammaMarket → Bool} {m : GammaMarket} (hf : l.find? p = some m) :
    ∀ y ∈ l, p y = true → effVol y ≤ effVol m := by
  induction l with
  | nil => simp at hf
  | cons x xs ih =>
    rcases List.pairwise_cons.mp hs with ⟨hx, hxs⟩
    by_cases hp : p x
    · rw [List.find?_cons_of_pos _ hp] at hf
      injection hf with hf
      subst hf
      intro y hy _
      rcases List.mem_cons.mp hy with rfl | hy
      · exact le_refl _
      · exact hx y hy
    · rw [List.find?_cons_of_neg _ hp] at hf
      intro y hy hpy
      rcases List.mem_cons.mp hy with rfl | hy
      · exact absurd hpy hp
      · exact ih hxs hf y hy hpy

/-- The head of a volume-descending list has maximal volume. -/
theorem head_max_of_sorted {l : List GammaMarket}
    (hs : l.Pairwise (fun a b => effVol b ≤ effVol a))
    {m : GammaMarket} (hh : l.head? = some m) :
    ∀ y ∈ l, effVol y ≤ effVol m := by
  cases l with
  | nil => simp at hh
  | cons x xs =>
    injection hh with hh
    subst hh
    intro y hy
    rcases List.mem_cons.mp hy with rfl | hy
    · exact le_refl _
    · exact (List.pairwise_cons.mp hs).1 y hy

/-- C9. Per event: an event with no markets contributes nothing; for an
event with more than one market, the selected market is the
greatest-volume one (volume, falling back to volumeNum, then 0) among the
active and open markets, and when no market is both active and open it is
a greatest-volume market overall. -/
theorem select_best_market_by_volume (e : GammaEvent) :
    (e.markets = [] → trendingOfEvent e = none)
    ∧ (1 < e.markets.length →
        (∃ m ∈ e.markets, activeOpen m = true) →
        ∃ m, selectBestMarket e = some m ∧ activeOpen m = true
          ∧ ∀ y ∈ e.markets, activeOpen y = true → effVol y ≤ effVol m)
    ∧ (1 < e.markets.length →
        (∀ m ∈ e.markets, activeOpen m = false) →
        ∃ m, selectBestMarket e = some m ∧ m ∈ e.markets
          ∧ ∀ y ∈ e.markets, effVol y ≤ effVol m) := by
  refine ⟨?_, ?_, ?_⟩
  · intro h
    simp [trendingOfEvent, selectBestMarket, h]
  · intro hlen ⟨m₀, hm₀, hact⟩
    obtain ⟨m, hfind⟩ :
        ∃ m, (sortVolDesc e.markets).find? (fun m => activeOpen m) = some m := by
      cases hcase : (sortVolDesc e.markets).find? (fun m => activeOpen m) with
      | none =>
        exact absurd hact (by simpa using
          List.find?_eq_none.mp hcase m₀ (mem_sortVolDesc.mpr hm₀))
      | some m => exact ⟨m, rfl⟩
    refine ⟨m, ?_, by simpa using List.find?_some hfind, ?_⟩
    · simp only [selectBestMarket]
      rw [if_pos hlen, hfind]
    · intro y hy hpy
      exact find?_max_of_sorted (pairwise_sortVolDesc _) hfind y
        (mem_sortVolDesc.mpr hy) hpy
  · intro hlen hnone
    have hfind : (sortVolDesc e.markets).find? (fun m => activeOpen m) = none := by
      refine List.find?_eq_none.mpr ?_
      intro m hm
      simp [hnone m (mem_sortVolDesc.mp hm)]
    have hne : sortVolDesc e.markets ≠ [] := by
      intro h
      have := (sortVolDesc_perm e.markets).length_eq
      rw [h] at this
      simp at this
      omega
    obtain ⟨m, hm⟩ : ∃ m, (sortVolDesc e.markets).head? = some m := by
      cases hh : (sortVolDesc e.markets).head? with
      | none => exact absurd (List.head?_eq_none_iff.mp hh) hne
      | some m => exact ⟨m, rfl⟩
    refine ⟨m, ?_, ?_, ?_⟩
    · simp only [selectBestMarket]
      rw [if_pos hlen, hfind, hm]
    · exact mem_sortVolDesc.mp (List.mem_of_mem_head? hm)
    · intro y hy
      exact head_max_of_sorted (pairwise_sortVolDesc _) hm y
        (mem_sortVolDesc.mpr hy)

/-- C10. The displayed probability of a selected market is `Math.round` of:
`lastTradePrice * 100` when `lastTradePrice` is a number; else the bid-ask
midpoint times 100 when both `bestAsk` and `bestBid` are numbers; else 100
times the first element of the parsed `outcomePrices` when the parse
succeeds on a non-empty list; else the default 50 (also on an empty parse
result, a parse failure or an absent field). -/
theorem trending_probability_rule (e : GammaEvent) (m : GammaMarket)
    (p a b q : ℚ) (ps : List ℚ) (s : String) :
    (mkTrendingMarket e { m with lastTradePrice := some p }).probability
        = round (p * 100)
    ∧ (mkTrendingMarket e { m with
          lastTradePrice := none
          bestAsk := some a
          bestBid := some b }).probability
        = round (((a + b) / 2) * 100)
    ∧ (mkTrendingMarket e { m with
          lastTradePrice := none
          bestAsk := none
          outcomePrices := some (.ok (q :: ps)) }).probability
        = round (q * 100)
    ∧ (mkTrendingMarket e { m with
          lastTradePrice := none
          bestBid := none
          outcomePrices := some (.ok (q :: ps)) }).probability
        = round (q * 100)
    ∧ (mkTrendingMarket e { m with
          lastTradePrice := none
          bestAsk := none
          outcomePrices := some (.ok []) }).probability = 50
    ∧ (mkTrendingMarket e { m with
          lastTradePrice := none
          bestAsk := none
          outcomePrices := some (.error s) }).probability = 50
    ∧ (mkTrendingMarket e { m with
          lastTradePrice := none
          bestAsk := none
          outcomePrices := none }).probability = 50 := by
  refine ⟨rfl, rfl, ?_, ?_, ?_, ?_, ?_⟩ <;>
    simp [mkTrendingMarket, rawProbability]

/-! ### Portfolio Constructor lemmas (C2, C3) -/

/-- What the retention filter guarantees about a kept signal. -/
theorem isRetained_spec {min_volume : ℚ} {s : Signal}
    (h : isRetained min_volume s = true) :
    ∃ c, s.correlation = some c ∧ c ≠ 0 ∧ min_volume ≤ s.volume_usd := by
  obtain ⟨tid, q, co, n, v⟩ := s
  cases co with
  | none => simp [isRetained] at h
  | some c =>
    simp only [isRetained, Bool.and_eq_true, decide_eq_true_eq] at h
    exact ⟨c, rfl, h.1, h.2⟩

/-- A retained signal with positive volume has a positive raw weight. -/
theorem rawWeight_pos {min_volume : ℚ} {s : Signal}
    (hr : isRetained min_volume s = true) (hv : 0 < s.volume_usd) :
    0 < rawWeight s := by
  obtain ⟨c, hc, hc0, _⟩ := isRetained_spec hr
  rw [rawWeight, hc]
  refine mul_pos ?_ ?_
  · simp only [Option.getD_some]
    exact abs_pos.mpr (by exact_mod_cast hc0)
  · refine Real.log_pos ?_
    have hv' : (0 : ℝ) < (s.volume_usd : ℝ) := by exact_mod_cast hv
    linarith

/-- The raw weights of a nonempty retained set with positive volumes sum
to a positive total. -/
theorem retained_total_pos {signals : List Signal} {min_volume : ℚ}
    (h1 : retained signals min_volume ≠ [])
    (h2 : ∀ s ∈ retained signals min_volume, 0 < s.volume_usd) :
    0 < ((retained signals min_volume).map rawWeight).sum := by
  refine List.sum_pos _ ?_ ?_
  · intro x hx
    rcases List.mem_map.mp hx with ⟨s, hs, rfl⟩
    exact rawWeight_pos (List.mem_filter.mp hs).2 (h2 s hs)
  · simpa using h1

/-- Dividing each mapped value by a constant divides the sum. -/
theorem list_sum_map_div {α : Type} (l : List α) (f : α → ℝ) (r : ℝ) :
    (l.map fun x => f x / r).sum = (l.map f).sum / r := by
  induction l with
  | nil => simp
  | cons x xs ih => simp [ih, add_div]

/-- C2. For a portfolio constructed from a nonempty retained set of
signals with positive volumes, the weights sum to 1 within the floating
tolerance `1e-6` (here they sum to exactly 1), and every weight is
non-negative. -/
theorem construct_weights_sum_one (signals : List Signal) (min_volume : ℚ)
    (h1 : retained signals min_volume ≠ [])
    (h2 : ∀ s ∈ retained signals min_volume, 0 < s.volume_usd) :
    |((construct signals min_volume).map (fun item => item.weight)).sum - 1|
        ≤ 1 / 1000000
    ∧ ∀ item ∈ construct signals min_volume, 0 ≤ item.weight := by
  have htot := retained_total_pos h1 h2
  have hmap : (construct signals min_volume).map (fun item => item.weight)
      = (retained signals min_volume).map
          (fun s => rawWeight s
            / ((retained signals min_volume).map rawWeight).sum) := by
    rw [construct, List.map_map]
    rfl
  constructor
  · rw [hmap, list_sum_map_div, div_self (ne_of_gt htot)]
    norm_num
  · intro item hitem
    rw [construct] at hitem
    rcases List.mem_map.mp hitem with ⟨s, hs, rfl⟩
    exact div_nonneg
      (le_of_lt (rawWeight_pos (List.mem_filter.mp hs).2 (h2 s hs)))
      (le_of_lt htot)

/-- C2 witness: the hypotheses hold on the concrete `exampleSignals` with
volume floor 0. -/
theorem construct_weights_sum_one_witness :
    |((construct exampleSignals 0).map (fun item => item.weight)).sum - 1|
        ≤ 1 / 1000000
    ∧ ∀ item ∈ construct exampleSignals 0, 0 ≤ item.weight :=
  construct_weights_sum_one exampleSignals 0
    (by simp [retained, exampleSignals, isRetained])
    (by simp [retained, exampleSignals, isRetained])

/-- C3. Every constructed portfolio item's action is BUY_YES exactly when
its correlation is positive and BUY_NO exactly when it is negative, and no
item with correlation 0 appears. -/
theorem construct_action_rule (signals : List Signal) (min_volume : ℚ) :
    (construct signals min_volume).Forall fun item =>
      (item.action = Act.BUY_YES ↔ 0 < item.correlation)
      ∧ (item.action = Act.BUY_NO ↔ item.correlation < 0)
      ∧ item.correlation ≠ 0 := by
  rw [List.forall_iff_forall_mem]
  intro item hitem
  rw [construct] at hitem
  rcases List.mem_map.mp hitem with ⟨s, hs, rfl⟩
  obtain ⟨c, hc, hc0, _⟩ := isRetained_spec (List.mem_filter.mp hs).2
  by_cases hpos : 0 < c
  · simp [hc, hpos, lt_asymm hpos, hc0]
  · have hneg : c < 0 := lt_of_le_of_ne (not_lt.mp hpos) hc0
    simp [hc, hpos, hneg, hc0]

/-! ### Correlation Engine lemmas (C6) -/

/-- A mapped list sum as a sum over the index type. -/
theorem list_sum_map_eq_fin_sum {α : Type} (l : List α) (f : α → ℝ) :
    (l.map f).sum = ∑ i : Fin l.length, f (l.get i) := by
  rw [← List.ofFn_getElem_eq_map l f, List.sum_ofFn]
  rfl

/-- Cauchy-Schwarz for mapped list sums. -/
theorem list_cauchy_schwarz (l : List (ℝ × ℝ)) (f g : ℝ × ℝ → ℝ) :
    (l.map fun q => f q * g q).sum
      ≤ Real.sqrt ((l.map fun q => f q ^ 2).sum)
        * Real.sqrt ((l.map fun q => g q ^ 2).sum) := by
  rw [list_sum_map_eq_fin_sum, list_sum_map_eq_fin_sum,
    list_sum_map_eq_fin_sum]
  exact Real.sum_mul_le_sqrt_mul_sqrt Finset.univ
    (fun i => f (l.get i)) (fun i => g (l.get i))

/-- Negating each mapped value negates the sum. -/
theorem list_sum_map_neg {α : Type} (l : List α) (f : α → ℝ) :
    (l.map fun x => -f x).sum = -(l.map f).sum := by
  induction l with
  | nil => simp
  | cons x xs ih => simp [ih]; ring

/-- Two-sided Cauchy-Schwarz for mapped list sums. -/
theorem list_abs_cauchy_schwarz (l : List (ℝ × ℝ)) (f g : ℝ × ℝ → ℝ) :
    |(l.map fun q => f q * g q).sum|
      ≤ Real.sqrt ((l.map fun q => f q ^ 2).sum)
        * Real.sqrt ((l.map fun q => g q ^ 2).sum) := by
  rw [abs_le]
  refine ⟨?_, list_cauchy_schwarz l f g⟩
  have h := list_cauchy_schwarz l (fun q => -f q) g
  have e1 : (l.map fun q => -f q * g q).sum
      = -(l.map fun q => f q * g q).sum := by
    rw [← list_sum_map_neg]
    congr 1
    exact List.map_congr_left fun q _ => by ring
  have e2 : (l.map fun q => (-f q) ^ 2).sum
      = (l.map fun q => f q ^ 2).sum := by
    congr 1
    exact List.map_congr_left fun q _ => by ring
  rw [e1, e2] at h
  linarith

/-- The squared-deviation sums are non-negative. -/
theorem devSqX_nonneg (pairs : List (ℝ × ℝ)) : 0 ≤ devSqX pairs := by
  refine List.sum_nonneg ?_
  intro x hx
  rcases List.mem_map.mp hx with ⟨q, _, rfl⟩
  positivity

/-- The squared-deviation sums are non-negative. -/
theorem devSqY_nonneg (pairs : List (ℝ × ℝ)) : 0 ≤ devSqY pairs := by
  refine List.sum_nonneg ?_
  intro x hx
  rcases List.mem_map.mp hx with ⟨q, _, rfl⟩
  positivity

/-- The Pearson correlation always lies in `[-1, 1]`: the zero-variance
guard returns 0, and otherwise Cauchy-Schwarz bounds the covariance by the
product of the standard deviations. -/
theorem pearson_abs_le_one (pairs : List (ℝ × ℝ)) : |pearson pairs| ≤ 1 := by
  simp only [pearson]
  by_cases h : Real.sqrt (devSqX pairs / pairs.length) = 0
      ∨ Real.sqrt (devSqY pairs / pairs.length) = 0
  · rw [if_pos h]
    simp
  · rw [if_neg h]
    push_neg at h
    obtain ⟨hx, hy⟩ := h
    have hsx : 0 < Real.sqrt (devSqX pairs / pairs.length) :=
      lt_of_le_of_ne (Real.sqrt_nonneg _) (Ne.symm hx)
    have hsy : 0 < Real.sqrt (devSqY pairs / pairs.length) :=
      lt_of_le_of_ne (Real.sqrt_nonneg _) (Ne.symm hy)
    have hn : (0 : ℝ) < (pairs.length : ℝ) := by
      rcases Nat.eq_zero_or_pos pairs.length with h0 | h0
      · exfalso
        apply hx
        rw [List.length_eq_zero.mp h0]
        simp [devSqX]
      · exact_mod_cast h0
    have key : |covSum pairs|
        ≤ Real.sqrt (devSqX pairs) * Real.sqrt (devSqY pairs) :=
      list_abs_cauchy_schwarz pairs
        (fun q => q.1 - mean (pairs.map Prod.fst))
        (fun q => q.2 - mean (pairs.map Prod.snd))
    have hrhs : Real.sqrt (devSqX pairs / pairs.length)
        * Real.sqrt (devSqY pairs / pairs.length)
        = Real.sqrt (devSqX pairs) * Real.sqrt (devSqY pairs)
          / (pairs.length : ℝ) := by
      rw [Real.sqrt_div (devSqX_nonneg pairs),
        Real.sqrt_div (devSqY_nonneg pairs), div_mul_div_comm]
      congr 1
      exact Real.mul_self_sqrt hn.le
    rw [abs_div, abs_of_pos (mul_pos hsx hsy),
      div_le_one (mul_pos hsx hsy), hrhs]
    have habs : |covSum pairs / (pairs.length : ℝ)|
        = |covSum pairs| / (pairs.length : ℝ) := by
      rw [abs_div, abs_of_pos hn]
    rw [habs]
    gcongr

/-- C6. Data-model invariant of Signal/PortfolioItem values: the action is
exactly one of the two values BUY_YES and BUY_NO, and the correlation the
Correlation Engine produces is null when the aligned overlap is below
`min_points` (insufficient data) and otherwise a value in `[-1, 1]`. -/
theorem signal_correlation_invariant (pairs : List (ℝ × ℝ))
    (min_points : ℕ) :
    (∀ a : Act, a = Act.BUY_YES ∨ a = Act.BUY_NO)
    ∧ (pairs.length < min_points → correlate pairs min_points = none)
    ∧ (min_points ≤ pairs.length →
        ∃ c, correlate pairs min_points = some c ∧ -1 ≤ c ∧ c ≤ 1) := by
  refine ⟨?_, ?_, ?_⟩
  · intro a
    cases a with
    | BUY_YES => exact Or.inl rfl
    | BUY_NO => exact Or.inr rfl
  · intro h
    simp [correlate, h]
  · intro h
    refine ⟨pearson pairs, ?_, ?_, ?_⟩
    · simp [correlate, not_lt.mpr h]
    · exact (abs_le.mp (pearson_abs_le_one pairs)).1
    · exact (abs_le.mp (pearson_abs_le_one pairs)).2

end Polyfund
